import Mathlib

/-!
# Verification of the sprint-utils availability and capacity engine

Shallow embedding of the sprint-planning engine (`sprintplanner.py`,
`team.py`, `teammember.py`, `config.py`).  Calendar dates are modelled as
proleptic-Gregorian ordinals (`Nat`), matching Python's
`datetime.date.toordinal` (0001-01-01 = ordinal 1, a Monday).  Python
floats used for ramp multipliers and capacity coefficients are modelled
as rationals; Python `int(...)` truncation and `round(...)`
half-to-even rounding are modelled explicitly (`ratTrunc`, `pyRound`).
Date strings in `%Y-%m-%d` format compare exactly like the dates they
denote, so the source's string comparisons are modelled as ordinal
comparisons.
-/

/-- Days from 0000-03-01 to the given civil date (Howard Hinnant's
`days_from_civil`, restricted to years ≥ 1 so that `Nat` suffices).
Month is 1..12, day 1..31. -/
def daysFromCivil (y m d : Nat) : Nat :=
  let y' := if m ≤ 2 then y - 1 else y
  let era := y' / 400
  let yoe := y' % 400
  let mp := if 2 < m then m - 3 else m + 9
  let doy := (153 * mp + 2) / 5 + d - 1
  let doe := yoe * 365 + yoe / 4 - yoe / 100 + doy
  era * 146097 + doe

/-- Python `datetime.date.toordinal`: 0001-01-01 ↦ 1. -/
def ordinalOf (y m d : Nat) : Nat :=
  daysFromCivil y m d - 305

/-- Inverse calendar conversion (`civil_from_days`): given days since
0000-03-01, return `(year, month, day)`. -/
def civilFromDays (z : Nat) : Nat × Nat × Nat :=
  let era := z / 146097
  let doe := z % 146097
  let yoe := (doe - doe / 1460 + doe / 36524 - doe / 146096) / 365
  let y := yoe + era * 400
  let doy := doe - (365 * yoe + yoe / 4 - yoe / 100)
  let mp := (5 * doy + 2) / 153
  let d := doy - (153 * mp + 2) / 5 + 1
  let m := if mp < 10 then mp + 3 else mp - 9
  (if m ≤ 2 then y + 1 else y, m, d)

/-- Python `date.weekday()` on ordinals: Monday = 0 .. Sunday = 6. -/
def pyWeekday (o : Nat) : Nat :=
  (o + 6) % 7

/-- ISO 8601 week number, as produced by `strftime("%V")`: the week
number of the Thursday lying in the same Monday-based week (week 1 is
the week containing the first Thursday of the year). -/
def isoWeek (o : Nat) : Nat :=
  let th := o + 3 - pyWeekday o
  let y := (civilFromDays (th + 305)).1
  (th + 305 - daysFromCivil y 1 1) / 7 + 1

/-- Embeds `sprintplanner.sprint_start`: the loop body computes
`days_ahead = 0 - d.weekday()` which is always `≤ 0`, so 7 is always
added and `target_date` is the next Monday strictly after `d`; the
parity of that Monday's ISO week number then picks the sprint start. -/
def sprint_start (d : Nat) : Nat :=
  let target := d + (7 - pyWeekday d)
  if isoWeek target % 2 = 0 then target - 14 else target - 7

/-- The configured `first_sprint_date`, 2025-03-03, as an ordinal. -/
def first_sprint_date_ord : Nat := ordinalOf 2025 3 3

/-- The configured `first_sprint_number`. -/
def first_sprint_number : Int := 73

/-- The configured `number_of_sprints`. -/
def number_of_sprints : Nat := 8

/-- The configured `number_of_sprints_back`. -/
def number_of_sprints_back : Nat := 0

/-- The configured `social_dates` as ordinals. -/
def social_dates_ord : List Nat :=
  [ordinalOf 2025 12 11, ordinalOf 2026 3 18, ordinalOf 2026 6 17,
   ordinalOf 2026 9 16]

/-- Python `int(x)` on a real value: truncation toward zero. -/
def ratTrunc (q : ℚ) : Int :=
  if 0 ≤ q then ⌊q⌋ else -⌊-q⌋

/-- Python 3 `round(x)` on a real value: round half to even. -/
def pyRound (q : ℚ) : Int :=
  let f := ⌊q⌋
  let r := q - f
  if r < 1 / 2 then f
  else if 1 / 2 < r then f + 1
  else if f % 2 = 0 then f else f + 1

/-- Embeds `sprintplanner.get_sprint_number`: `int(first_sprint_number +
delta.days / 14)` with Python float division and `int` truncation,
modelled over the rationals. -/
def get_sprint_number (s : Nat) : Int :=
  ratTrunc ((first_sprint_number : ℚ)
    + (((s : Int) - (first_sprint_date_ord : Int) : Int) : ℚ) / 14)

/-- Embeds `teammember.TeamMember`: roster member as stored by `__init__`.
Dates are modelled as parsed ordinals (`strptime` on the stored
`%Y-%m-%d` strings is applied by the availability calculator);
`start_pct` is a Python float, modelled as a rational. -/
structure TeamMember where
  name : String
  bamboo_name : String
  pagerduty_name : String
  start_date : Option Nat
  leave_date : Option Nat
  start_pct : ℚ
deriving DecidableEq, Repr

/-- The dictionary shape accepted by `TeamMember.from_dict`: only
`name` is required, the rest default. -/
structure MemberDict where
  name : String
  bamboo_name : Option String := none
  pagerduty_name : Option String := none
  start_date : Option Nat := none
  leave_date : Option Nat := none
  start_pct : Option ℚ := none
deriving DecidableEq, Repr

/-- Embeds `TeamMember.from_dict`: fills defaults and stores every field
verbatim; the source performs no validation of any kind. -/
def TeamMember.from_dict (d : MemberDict) : TeamMember :=
  { name := d.name
    bamboo_name := d.bamboo_name.getD d.name
    pagerduty_name := d.pagerduty_name.getD d.name
    start_date := d.start_date
    leave_date := d.leave_date
    start_pct := d.start_pct.getD 1 }

/-- Embeds `team.Team`: the fields the engine reads.  `Team.__init__` maps
member dicts through `TeamMember.from_dict` (see `Team.mkMembers`)
and performs no other processing of members. -/
structure Team where
  name : String
  jira_key : String
  points_per_epic : ℚ
  manager : String
  team_members : List TeamMember
  people_of_interest : List String
  point_capacity : ℚ
  load_factor : ℚ
  engineering_split : ℚ
deriving DecidableEq, Repr

/-- The member-list processing inside `Team.__init__`:
`[TeamMember.from_dict(m) for m in team_members]`. -/
def Team.mkMembers (ds : List MemberDict) : List TeamMember :=
  ds.map TeamMember.from_dict

/-- Count of weekdays among the `n` consecutive dates starting at
ordinal `d` (the source's
`sum(1 for i in range(days_left) if (d + timedelta(i)).weekday() < 5)`). -/
def weekdayCountFrom (d n : Nat) : Nat :=
  (List.range n).countP (fun i => pyWeekday (d + i) < 5)

/-- The social-event deduction: 1 when some configured social date
falls inside `[ss, se]`, else 0 (the source compares `%Y-%m-%d`
strings, which orders exactly like the dates themselves). -/
def socialPenalty (socials : List Nat) (ss se : Nat) : Nat :=
  if (socials.filter (fun d => ss ≤ d && d ≤ se)).isEmpty then 0 else 1

/-- Everything the `get_team_availability` member loop produces for a
single member: the (pre-sort) row when not excluded, the counters
added to the team totals, and any starter/leaver/ramping notes. -/
structure MemberResult where
  nameDisp : String
  daysDisp : String
  actual : Int
  available : Int
  holidaysLen : Nat
  l1len : Nat
  l2len : Nat
  excluded : Bool
  leaver : Option (String × Nat)
  starter : Option (String × Nat)
  ramping : Option (String × Int)
deriving DecidableEq, Repr

/-- One iteration of the member loop in
`sprintplanner.get_team_availability` (lines 230–314): base
availability, then the leaver branch, then the starter/ramp branch
(whose guard requires no leave date or a leave date after the sprint
end).  `ss`/`se` are the sprint start/end ordinals, `l1`/`l2` map a
PagerDuty name to its on-call dates, `hol` maps a member name to its
sprint-window holiday dates, `sp` is the social penalty. -/
def computeMember (ss se : Nat) (l1 l2 hol : String → List Nat)
    (sp : Nat) (m : TeamMember) : MemberResult :=
  let H := (hol m.name).length
  let l1d := (l1 m.pagerduty_name).length
  let l2d := (l2 m.pagerduty_name).length
  let deduct : Int := (H : Int) + l1d + sp
  let baseAvail : Int := max 0 (10 - deduct)
  -- leaver branch: (actual, available, name display, days display,
  -- excluded, leaver note)
  let s1 : Int × Int × String × String × Bool × Option (String × Nat) :=
    match m.leave_date with
    | none => (10 - deduct, baseAvail, m.name, toString baseAvail, false, none)
    | some ld =>
      if ld < ss then (0, 0, m.name, "0", true, none)
      else if ld ≤ se then
        let a := max 0 ((weekdayCountFrom ss (ld - ss + 1) : Int) - deduct)
        (a, a, m.name, toString a, false, some (m.name, ld))
      else
        let a := max 0 (10 - deduct)
        (a, a, m.name, toString a, false, none)
  -- starter/ramp branch
  let guard : Bool :=
    match m.start_date, m.leave_date with
    | some _, none => true
    | some _, some ld => decide (se < ld)
    | none, _ => false
  match m.start_date, guard with
  | some sd, true =>
    if se < sd then
      ⟨m.name, "0", 0, 0, H, l1d, l2d, true, s1.2.2.2.2.2, none, none⟩
    else if ss < sd then
      ⟨m.name, "0", 0, 0, H, l1d, l2d, true, s1.2.2.2.2.2, none, none⟩
    else
      let sprintNum : Int := max 0 (Int.fdiv ((ss : Int) - (sd : Int)) 14)
      let ramp : ℚ := min (m.start_pct + 1 / 10 * (sprintNum : ℚ)) 1
      let inWindow : Bool := decide (ss ≤ sd) && decide (sd ≤ se)
      let actual : Int :=
        if inWindow then
          max 0 ((weekdayCountFrom sd (se - sd + 1) : Int) - deduct)
        else max 0 (10 - deduct)
      let starterNote := if inWindow then some (m.name, sd) else none
      if ramp < 1 then
        let eff := pyRound ((actual : ℚ) * ramp)
        ⟨m.name ++ " *", toString actual ++ " (" ++ toString eff ++ ")",
          actual, eff, H, l1d, l2d, false, s1.2.2.2.2.2, starterNote,
          some (m.name, ratTrunc (ramp * 100))⟩
      else
        ⟨m.name, toString actual, actual, actual, H, l1d, l2d, false,
          s1.2.2.2.2.2, starterNote, none⟩
  | _, _ =>
    ⟨s1.2.2.1, s1.2.2.2.1, s1.1, s1.2.1, H, l1d, l2d, s1.2.2.2.2.1,
      s1.2.2.2.2.2, none, none⟩

/-- A capacity-table row as appended by the member loop:
`(name_display, days_display, holidays_count, l1_days, l2_days)`. -/
abbrev Row := String × String × Nat × Nat × Nat

/-- Insert into a list already sorted by `le` (used to model Python's
`sorted`, which sorts ascending and stably). -/
def insertBy (le : α → α → Bool) (x : α) : List α → List α
  | [] => [x]
  | y :: ys => if le x y then x :: y :: ys else y :: insertBy le x ys

/-- Insertion sort by the boolean relation `le`. -/
def sortBy (le : α → α → Bool) : List α → List α
  | [] => []
  | x :: xs => insertBy le x (sortBy le xs)

/-- Ordering of ramping notes, i.e. lexicographic order on
`(name, percentage)` tuples as used by `sorted(set(...))`. -/
def rampLe (a b : String × Int) : Bool :=
  decide (a.1 < b.1) || (decide (a.1 = b.1) && decide (a.2 ≤ b.2))

/-- The result dictionary of `get_team_availability`.  The epic total
read from the module-level JIRA cache is passed in as a parameter. -/
structure TeamAvailability where
  rows : List Row
  total_team_days : Int
  total_team_holidays : Nat
  points : ℚ
  eng_points : ℚ
  prod_points : ℚ
  sprint_epic_total : ℚ
  starters_this_sprint : List (String × Nat)
  leavers_this_sprint : List (String × Nat)
  ramping_this_sprint : List (String × Int)
deriving DecidableEq, Repr

/-- Loop accumulator of `get_team_availability`. -/
structure AvailAcc where
  rows : List Row
  total_days : Int
  total_hols : Nat
  starters : List (String × Nat)
  leavers : List (String × Nat)
  ramping : List (String × Int)
deriving DecidableEq, Repr

/-- One member-loop iteration folded into the accumulator: excluded
members append no row and add nothing to the totals; starter, leaver
and ramping notes are recorded where the source appends them (all
three are `none` on every excluded path). -/
def availStep (ss se : Nat) (l1 l2 hol : String → List Nat) (sp : Nat)
    (acc : AvailAcc) (m : TeamMember) : AvailAcc :=
  let r := computeMember ss se l1 l2 hol sp m
  { rows := if r.excluded then acc.rows
      else acc.rows ++ [(r.nameDisp, r.daysDisp, r.holidaysLen, r.l1len, r.l2len)]
    total_days := if r.excluded then acc.total_days else acc.total_days + r.available
    total_hols := if r.excluded then acc.total_hols else acc.total_hols + r.holidaysLen
    starters := acc.starters ++ r.starter.toList
    leavers := acc.leavers ++ r.leaver.toList
    ramping := acc.ramping ++ r.ramping.toList }

/-- Embeds `sprintplanner.get_team_availability` (lines 206–339): social
penalty from the configured social dates, the member loop, then the
capacity aggregation `points = total_team_days × load_factor ×
point_capacity`, `eng_points = points × engineering_split`,
`prod_points = points − eng_points`, rows sorted by display name and
ramping notes deduplicated and sorted. -/
def get_team_availability (ss se : Nat) (l1 l2 hol : String → List Nat)
    (socials : List Nat) (epicTotal : ℚ) (team : Team) : TeamAvailability :=
  let sp := socialPenalty socials ss se
  let acc := team.team_members.foldl (availStep ss se l1 l2 hol sp)
    ⟨[], 0, 0, [], [], []⟩
  let points : ℚ := (acc.total_days : ℚ) * team.load_factor * team.point_capacity
  let eng := points * team.engineering_split
  { rows := sortBy (fun a b => decide (a.1 ≤ b.1)) acc.rows
    total_team_days := acc.total_days
    total_team_holidays := acc.total_hols
    points := points
    eng_points := eng
    prod_points := points - eng
    sprint_epic_total := epicTotal
    starters_this_sprint := acc.starters
    leavers_this_sprint := acc.leavers
    ramping_this_sprint := sortBy rampLe acc.ramping.eraseDups }

/-- The sprint-enumeration loop of `get_sprint_data` (lines 364–429):
`while current_start <= end_date`, emitting the window
`[current_start, current_start + 13]` and stepping by 14 days.  The
fuel argument bounds the iteration count; `stop + 1 - start` always
suffices since each step advances by 14 ≥ 1 days. -/
def sprintWindowsAux : Nat → Nat → Nat → List (Nat × Nat)
  | 0, _, _ => []
  | fuel + 1, start, stop =>
    if start ≤ stop then (start, start + 13) :: sprintWindowsAux fuel (start + 14) stop
    else []

/-- Windows emitted by the `get_sprint_data` loop running from
`start` while `current_start ≤ stop`. -/
def sprintWindows (start stop : Nat) : List (Nat × Nat) :=
  sprintWindowsAux (stop + 1 - start) start stop

/-- The full enumeration performed by `get_sprint_data`: from the
resolved first sprint start, with
`end_date = next_sprint + 14 * number_of_sprints`. -/
def sprintWindowsFrom (nextSprint : Nat) : List (Nat × Nat) :=
  sprintWindows nextSprint (nextSprint + 14 * number_of_sprints)

lemma length_insertBy (le : α → α → Bool) (x : α) :
    ∀ l : List α, (insertBy le x l).length = l.length + 1 := by
  intro l
  induction l with
  | nil => rfl
  | cons y ys ih =>
    simp only [insertBy]
    split
    · simp
    · simp [ih]

lemma length_sortBy (le : α → α → Bool) :
    ∀ l : List α, (sortBy le l).length = l.length := by
  intro l
  induction l with
  | nil => rfl
  | cons y ys ih => simp [sortBy, length_insertBy, ih]

lemma socialPenalty_eq_ite (socials : List Nat) (ss se : Nat) :
    socialPenalty socials ss se
      = if ∃ d ∈ socials, ss ≤ d ∧ d ≤ se then 1 else 0 := by
  unfold socialPenalty
  rcases h : socials.filter (fun d => ss ≤ d && d ≤ se) with _ | ⟨d, l⟩
  · have hall : ∀ d ∈ socials, ¬(ss ≤ d ∧ d ≤ se) := by
      intro d hd hcon
      have : d ∈ socials.filter (fun d => ss ≤ d && d ≤ se) := by
        simp [List.mem_filter, hd, hcon.1, hcon.2]
      simp [h] at this
    simp only [List.isEmpty_nil, if_true]
    rw [if_neg]
    push_neg at hall ⊢
    intro d hd
    exact hall d hd
  · have hmem : d ∈ socials.filter (fun d => ss ≤ d && d ≤ se) := by simp [h]
    rw [List.mem_filter] at hmem
    simp only [List.isEmpty_cons, if_false, Bool.false_eq_true]
    rw [if_pos]
    refine ⟨d, hmem.1, ?_, ?_⟩
    · have := hmem.2
      simp at this
      exact this.1
    · have := hmem.2
      simp at this
      exact this.2

lemma foldl_availStep_char (ss se : Nat) (l1 l2 hol : String → List Nat)
    (sp : Nat) :
    ∀ (ms : List TeamMember) (acc : AvailAcc),
      (ms.foldl (availStep ss se l1 l2 hol sp) acc).total_days
        = acc.total_days
          + (((ms.map (computeMember ss se l1 l2 hol sp)).filter
              (fun x => !x.excluded)).map (fun x => x.available)).sum
      ∧ (ms.foldl (availStep ss se l1 l2 hol sp) acc).total_hols
        = acc.total_hols
          + (((ms.map (computeMember ss se l1 l2 hol sp)).filter
              (fun x => !x.excluded)).map (fun x => x.holidaysLen)).sum
      ∧ (ms.foldl (availStep ss se l1 l2 hol sp) acc).rows.length
        = acc.rows.length
          + ((ms.map (computeMember ss se l1 l2 hol sp)).filter
              (fun x => !x.excluded)).length := by
  intro ms
  induction ms with
  | nil => simp
  | cons m ms ih =>
    intro acc
    obtain ⟨ih1, ih2, ih3⟩ := ih (availStep ss se l1 l2 hol sp acc m)
    rcases hex : (computeMember ss se l1 l2 hol sp m).excluded with _ | _
    · refine ⟨?_, ?_, ?_⟩
      · rw [List.foldl_cons, ih1]
        simp [availStep, hex]
        ring
      · rw [List.foldl_cons, ih2]
        simp [availStep, hex]
        omega
      · rw [List.foldl_cons, ih3]
        simp [availStep, hex]
        omega
    · refine ⟨?_, ?_, ?_⟩
      · rw [List.foldl_cons, ih1]
        simp [availStep, hex]
      · rw [List.foldl_cons, ih2]
        simp [availStep, hex]
      · rw [List.foldl_cons, ih3]
        simp [availStep, hex]

/-- Window ends: every emitted window satisfies `end = start + 13`. -/
def allWindows14 (ws : List (Nat × Nat)) : Bool :=
  ws.all (fun w => w.2 == w.1 + 13)

lemma sprintWindowsAux_zero (s e : Nat) : sprintWindowsAux 0 s e = [] := rfl

lemma sprintWindowsAux_succ (fuel s e : Nat) :
    sprintWindowsAux (fuel + 1) s e
      = if s ≤ e then (s, s + 13) :: sprintWindowsAux fuel (s + 14) e
        else [] := rfl

lemma sprintWindowsAux_congr :
    ∀ (f g s e : Nat), e + 1 - s ≤ f → e + 1 - s ≤ g →
      sprintWindowsAux f s e = sprintWindowsAux g s e := by
  intro f
  induction f with
  | zero =>
    intro g s e hf hg
    cases g with
    | zero => rfl
    | succ g =>
      rw [sprintWindowsAux_zero, sprintWindowsAux_succ, if_neg]
      omega
  | succ f ih =>
    intro g s e hf hg
    cases g with
    | zero =>
      rw [sprintWindowsAux_zero, sprintWindowsAux_succ, if_neg]
      omega
    | succ g =>
      rw [sprintWindowsAux_succ, sprintWindowsAux_succ]
      by_cases h : s ≤ e
      · rw [if_pos h, if_pos h, ih g (s + 14) e (by omega) (by omega)]
      · rw [if_neg h, if_neg h]

lemma sprintWindows_char :
    ∀ (N s : Nat), sprintWindows s (s + 14 * N)
      = (List.range (N + 1)).map (fun k => (s + 14 * k, s + 14 * k + 13)) := by
  intro N
  induction N with
  | zero =>
    intro s
    have h0 : s + 14 * 0 + 1 - s = 0 + 1 := by omega
    unfold sprintWindows
    rw [h0, sprintWindowsAux_succ, if_pos (by omega), sprintWindowsAux_zero]
    simp [List.range_succ]
  | succ N ih =>
    intro s
    have h1 : s + 14 * (N + 1) + 1 - s = (14 * N + 14) + 1 := by omega
    unfold sprintWindows
    rw [h1, sprintWindowsAux_succ, if_pos (by omega)]
    have h2 : sprintWindowsAux (14 * N + 14) (s + 14) (s + 14 * (N + 1))
        = sprintWindows (s + 14) ((s + 14) + 14 * N) := by
      have h3 : (s + 14) + 14 * N = s + 14 * (N + 1) := by ring
      rw [h3]
      unfold sprintWindows
      exact sprintWindowsAux_congr _ _ _ _ (by omega) (by omega)
    have hR : (List.range (N + 1 + 1)).map (fun k => (s + 14 * k, s + 14 * k + 13))
        = (s, s + 13) :: (List.range (N + 1)).map
            (fun k => ((s + 14) + 14 * k, (s + 14) + 14 * k + 13)) := by
      rw [List.range_succ_eq_map, List.map_cons, List.map_map]
      refine congrArg₂ List.cons (by simp) (List.map_congr_left ?_)
      intro k hk
      simp only [Function.comp_apply, Prod.mk.injEq]
      omega
    rw [h2, ih (s + 14), hR]


lemma allWindows14_sprintWindows (N s : Nat) :
    allWindows14 (sprintWindows s (s + 14 * N)) = true := by
  rw [sprintWindows_char]
  simp [allWindows14, List.all_eq_true]

lemma chain_sprintWindows (N s : Nat) :
    List.Chain' (fun a b : Nat × Nat => b.1 = a.2 + 1)
      (sprintWindows s (s + 14 * N)) := by
  rw [sprintWindows_char, List.chain'_map, List.chain'_range_succ]
  intro i _
  simp only
  omega

lemma length_sprintWindows (N s : Nat) :
    (sprintWindows s (s + 14 * N)).length = N + 1 := by
  rw [sprintWindows_char]
  simp

/-- The spec's candidate Monday for the parity rule: the next Monday
on or after `d` (equal to `d` itself when `d` is a Monday). -/
def nextMondayOnOrAfter (d : Nat) : Nat :=
  if pyWeekday d = 0 then d else d + (7 - pyWeekday d)

/-- The sprint-start rule exactly as the spec words it, for comparison
with `sprint_start`: parity rule applied to the next Monday on or
after `d`. -/
def sprintStartSpec (d : Nat) : Nat :=
  let M := nextMondayOnOrAfter d
  if isoWeek M % 2 = 0 then M - 14 else M - 7

/-- The Monday the code actually uses: the next Monday strictly after
`d` (`days_ahead = 0 - weekday` is never positive, so 7 is always
added). -/
def nextMondayAfter (d : Nat) : Nat :=
  d + (7 - pyWeekday d)

/-- C3, counterexample: the claim applies the parity rule to the next
Monday on or after `d`.  For the Monday 2026-01-05 (ISO week 2, even)
the claimed rule yields 2025-12-22, but `sprint_start` advances to the
strictly-later Monday 2026-01-12 (ISO week 3, odd) and returns
2026-01-05 itself. -/
theorem c3_counterexample :
    sprint_start (ordinalOf 2026 1 5) = ordinalOf 2026 1 5
    ∧ sprintStartSpec (ordinalOf 2026 1 5) = ordinalOf 2025 12 22
    ∧ ordinalOf 2026 1 5 ≠ ordinalOf 2025 12 22 :=
  ⟨by decide, by decide, by decide⟩

/-- C3, amended: `sprint_start d` applies the parity rule (even ISO
week ⇒ 14 days back, odd ⇒ 7 days back) to the next Monday STRICTLY
AFTER `d`; consequently the claim as stated holds for every
non-Monday `d`. -/
theorem c3_amended (d : Nat) :
    sprint_start d
      = (if isoWeek (nextMondayAfter d) % 2 = 0 then nextMondayAfter d - 14
         else nextMondayAfter d - 7)
    ∧ (pyWeekday d ≠ 0 → sprint_start d = sprintStartSpec d) := by
  constructor
  · rfl
  · intro h
    simp only [sprintStartSpec, nextMondayOnOrAfter, if_neg h]
    rfl

/-- Witness for `c3_amended` at the Tuesday 2026-01-06. -/
theorem c3_amended_wit :
    sprint_start (ordinalOf 2026 1 6) = sprintStartSpec (ordinalOf 2026 1 6) :=
  (c3_amended (ordinalOf 2026 1 6)).2 (by decide)

/-- C4, counterexample: starting from the resolved first sprint start,
the orchestrator's `while current_start <= end_date` loop emits
`number_of_sprints + 1` windows (both loop bounds inclusive), not
`number_of_sprints`. -/
theorem c4_counterexample :
    (sprintWindowsFrom
        (sprint_start (ordinalOf 2025 11 20) - 14 * number_of_sprints_back)).length
      = number_of_sprints + 1
    ∧ number_of_sprints + 1 ≠ number_of_sprints :=
  ⟨by decide, by decide⟩

/-- C4, amended: the enumeration starting at `s` with end bound
`s + 14·N` produces exactly `N + 1` windows, each a 14-day window with
`end = start + 13`, consecutive with no gaps or overlaps
(`next.start = previous.end + 1`), in sprint order. -/
theorem c4_amended (s N : Nat) :
    (sprintWindows s (s + 14 * N)).length = N + 1
    ∧ allWindows14 (sprintWindows s (s + 14 * N)) = true
    ∧ List.Chain' (fun a b : Nat × Nat => b.1 = a.2 + 1)
        (sprintWindows s (s + 14 * N)) :=
  ⟨length_sprintWindows N s, allWindows14_sprintWindows N s,
    chain_sprintWindows N s⟩

/-- C5, counterexample: 2020-12-21 is a genuine sprint start (it is
`sprint_start` of 2020-12-22), 1533 days before the anchor
2025-03-03.  The claimed formula `anchor_number + floor(days/14)`
gives `73 + ⌊-109.5⌋ = -37`, but `int()` truncates toward zero and the
code returns `-36`. -/
theorem c5_counterexample :
    sprint_start (ordinalOf 2020 12 22) = ordinalOf 2020 12 21
    ∧ get_sprint_number (ordinalOf 2020 12 21) = -36
    ∧ first_sprint_number
        + ⌊(((ordinalOf 2020 12 21 : Int) - (first_sprint_date_ord : Int) : Int) : ℚ) / 14⌋
      = -37
    ∧ (-36 : Int) ≠ -37 := by
  have h1 : ((ordinalOf 2020 12 21 : Int) - (first_sprint_date_ord : Int)) = -1533 := by
    decide
  have h2 : ((-1533 : Int) : ℚ) / 14 = -219 / 2 := by norm_num
  have h3 : ⌊(-219 / 2 : ℚ)⌋ = -110 := by
    rw [Int.floor_eq_iff]
    norm_num
  have h4 : ⌊(73 / 2 : ℚ)⌋ = 36 := by
    rw [Int.floor_eq_iff]
    norm_num
  refine ⟨by decide, ?_, ?_, by decide⟩
  · unfold get_sprint_number ratTrunc
    rw [h1, h2]
    rw [if_neg (by norm_num [first_sprint_number])]
    have h5 : -((first_sprint_number : ℚ) + -219 / 2) = 73 / 2 := by
      norm_num [first_sprint_number]
    rw [h5, h4]
  · rw [h1, h2, h3]
    decide

/-- C5, amended: the sprint number is the claimed
`anchor_number + floor((s − anchor).days / 14)` for every date `s`
with `anchor_number + (s − anchor)/14 ≥ 0` (equivalently
`s ≥ anchor − 14·anchor_number` days, i.e. every date from mid-2021
on); for earlier dates Python's `int()` truncates the negative value
toward zero instead of flooring. -/
theorem c5_amended (s : Nat) (h : first_sprint_date_ord ≤ s + 1022) :
    get_sprint_number s
      = first_sprint_number
        + ⌊(((s : Int) - (first_sprint_date_ord : Int) : Int) : ℚ) / 14⌋ := by
  unfold get_sprint_number ratTrunc
  have hd : (-1022 : Int) ≤ (s : Int) - (first_sprint_date_ord : Int) := by omega
  have hdq : (-1022 : ℚ) ≤ (((s : Int) - (first_sprint_date_ord : Int) : Int) : ℚ) := by
    exact_mod_cast hd
  have h14 : (-73 : ℚ) ≤ (((s : Int) - (first_sprint_date_ord : Int) : Int) : ℚ) / 14 := by
    have := (div_le_div_iff_of_pos_right (c := (14 : ℚ)) (by norm_num)).mpr hdq
    calc (-73 : ℚ) = -1022 / 14 := by norm_num
    _ ≤ _ := this
  have h0 : (0 : ℚ) ≤ (first_sprint_number : ℚ)
      + (((s : Int) - (first_sprint_date_ord : Int) : Int) : ℚ) / 14 := by
    have h73 : ((first_sprint_number : Int) : ℚ) = 73 := by
      norm_num [first_sprint_number]
    rw [h73] at *
    linarith
  rw [if_pos h0, Int.floor_int_add]

/-- Witness for `c5_amended` at the anchor itself. -/
theorem c5_amended_wit : get_sprint_number first_sprint_date_ord = 73 :=
  (c5_amended first_sprint_date_ord (by decide)).trans (by
    norm_num [first_sprint_number])

/-- A Monday usable as a concrete sprint start (2025-11-24). -/
def mondayOrd : Nat := ordinalOf 2025 11 24

/-- The matching sprint end, 13 days later. -/
def sundayEndOrd : Nat := mondayOrd + 13

/-- An empty date map (no absences / no on-call days). -/
def emptyDates : String → List Nat := fun _ => []

/-- C2: for a member with no start and no leave date the loop takes
the base branch, so
`available = max 0 (10 − |holidays| − l1_days − social_penalty)` where
the social penalty is 1 exactly when a configured social date falls
inside the sprint window, and the member is not excluded. -/
theorem c2_base_availability (ss se : Nat) (l1 l2 hol : String → List Nat)
    (socials : List Nat) (m : TeamMember)
    (hs : m.start_date = none) (hl : m.leave_date = none) :
    (computeMember ss se l1 l2 hol (socialPenalty socials ss se) m).available
      = max 0 ((10 : Int) - ((hol m.name).length : Int)
          - ((l1 m.pagerduty_name).length : Int)
          - (socialPenalty socials ss se : Int))
    ∧ socialPenalty socials ss se
      = (if ∃ d ∈ socials, ss ≤ d ∧ d ≤ se then 1 else 0)
    ∧ (computeMember ss se l1 l2 hol (socialPenalty socials ss se) m).excluded
      = false := by
  refine ⟨?_, socialPenalty_eq_ite socials ss se, ?_⟩
  · simp only [computeMember, hs, hl]
    congr 1
    ring
  · simp [computeMember, hs, hl]

/-- Witness for `c2_base_availability`: the spec scenario — 3 absence
weekdays, 1 L1 day and an active social penalty give 5 available
days. -/
theorem c2_base_availability_wit :
    (computeMember mondayOrd sundayEndOrd (fun _ => [mondayOrd + 7])
        emptyDates (fun _ => [mondayOrd + 1, mondayOrd + 2, mondayOrd + 3])
        (socialPenalty [mondayOrd + 3] mondayOrd sundayEndOrd)
        ⟨"Ann", "Ann", "Ann", none, none, 1⟩).available = 5 := by
  have h := (c2_base_availability mondayOrd sundayEndOrd
      (fun _ => [mondayOrd + 7]) emptyDates
      (fun _ => [mondayOrd + 1, mondayOrd + 2, mondayOrd + 3])
      [mondayOrd + 3] ⟨"Ann", "Ann", "Ann", none, none, 1⟩ rfl rfl).1
  rw [h]
  decide

/-- C6, counterexample: a member leaving exactly on `sprint.start`
with no absence and no L1 day that day is claimed to get 1 available
day; but the code also deducts the social penalty (and any
sprint-window absence after the leave date), so a social event three
days after the leave date drives the count to 0. -/
theorem c6_counterexample :
    (computeMember mondayOrd sundayEndOrd emptyDates emptyDates emptyDates
        (socialPenalty [mondayOrd + 3] mondayOrd sundayEndOrd)
        ⟨"Ann", "Ann", "Ann", none, some mondayOrd, 1⟩).available = 0
    ∧ (0 : Int) ≠ 1 :=
  ⟨by decide, by decide⟩

/-- C6, amended: for `leave_date = sprint.start` (a Monday) the
truncated weekday count is the single day 1, but the code then
subtracts ALL absence days and L1 days recorded for the sprint window
plus the social penalty (floored at 0):
`available = max 0 (1 − |holidays| − l1_days − social_penalty)`; the
member is still emitted as a row and recorded as a leaver. -/
theorem c6_amended (ss se : Nat) (l1 l2 hol : String → List Nat) (sp : Nat)
    (m : TeamMember) (hl : m.leave_date = some ss) (hse : ss ≤ se)
    (hmon : pyWeekday ss = 0) :
    (computeMember ss se l1 l2 hol sp m).available
      = max 0 ((1 : Int) - ((hol m.name).length : Int)
          - ((l1 m.pagerduty_name).length : Int) - (sp : Int))
    ∧ (computeMember ss se l1 l2 hol sp m).excluded = false
    ∧ (computeMember ss se l1 l2 hol sp m).leaver = some (m.name, ss) := by
  have hw : weekdayCountFrom ss 1 = 1 := by
    simp [weekdayCountFrom, List.range_succ, List.countP_cons, hmon]
  have hguard : ¬se < ss := by omega
  cases hstart : m.start_date with
  | none =>
    refine ⟨?_, ?_, ?_⟩ <;>
      simp [computeMember, hstart, hl, hw, hse, hguard] <;> omega
  | some sd =>
    refine ⟨?_, ?_, ?_⟩ <;>
      simp [computeMember, hstart, hl, hw, hse, hguard] <;> omega

/-- Witness for `c6_amended`: no deductions at all give 1 available
day, not 0. -/
theorem c6_amended_wit :
    (computeMember mondayOrd sundayEndOrd emptyDates emptyDates emptyDates 0
        ⟨"Bob", "Bob", "Bob", none, some mondayOrd, 1⟩).available = 1 := by
  have h := (c6_amended mondayOrd sundayEndOrd emptyDates emptyDates
      emptyDates 0 ⟨"Bob", "Bob", "Bob", none, some mondayOrd, 1⟩ rfl
      (by decide) (by decide)).1
  rw [h]
  decide

/-- C1, counterexample: a starter joining on the Wednesday two days
into the sprint (`start_pct = 0.5`, no absences, no social penalty) is
claimed to get the truncated weekday count (8 days, ramped to 4) and a
starters-list entry; the code's `elif sprint_start < start_dt` branch
instead excludes the member completely: no row, 0 days, no starter
record. -/
theorem c1_counterexample :
    (computeMember mondayOrd sundayEndOrd emptyDates emptyDates emptyDates 0
        ⟨"Ann", "Ann", "Ann", some (mondayOrd + 2), none, 1 / 2⟩).excluded = true
    ∧ (computeMember mondayOrd sundayEndOrd emptyDates emptyDates emptyDates 0
        ⟨"Ann", "Ann", "Ann", some (mondayOrd + 2), none, 1 / 2⟩).starter = none
    ∧ (computeMember mondayOrd sundayEndOrd emptyDates emptyDates emptyDates 0
        ⟨"Ann", "Ann", "Ann", some (mondayOrd + 2), none, 1 / 2⟩).available = 0
    ∧ weekdayCountFrom (mondayOrd + 2) (sundayEndOrd - (mondayOrd + 2) + 1) = 8 :=
  ⟨by decide, by decide, by decide, by decide⟩

/-- C1, amended: when the leaver branch does not apply, a member whose
`start_date` lies STRICTLY inside the sprint window is fully excluded
(no starter record, 0 days); the truncated-weekday-count path together
with the starter record only fires when `start_date = sprint.start`,
and there the ramp multiplier `min(start_pct, 1)` is applied by
half-to-even rounding when it is `< 1`, with a ramping note recording
`int(multiplier × 100)`. -/
theorem c1_amended (ss se : Nat) (l1 l2 hol : String → List Nat) (sp : Nat)
    (m : TeamMember) (sd : Nat) (hs : m.start_date = some sd)
    (hguard : m.leave_date = none ∨ ∃ ld, m.leave_date = some ld ∧ se < ld)
    (hse : ss ≤ se) :
    (ss < sd →
      (computeMember ss se l1 l2 hol sp m).excluded = true
      ∧ (computeMember ss se l1 l2 hol sp m).starter = none
      ∧ (computeMember ss se l1 l2 hol sp m).available = 0)
    ∧ (sd = ss →
      (computeMember ss se l1 l2 hol sp m).excluded = false
      ∧ (computeMember ss se l1 l2 hol sp m).starter = some (m.name, sd)
      ∧ (computeMember ss se l1 l2 hol sp m).actual
          = max 0 ((weekdayCountFrom sd (se - sd + 1) : Int)
              - ((hol m.name).length : Int)
              - ((l1 m.pagerduty_name).length : Int) - (sp : Int))
      ∧ (min m.start_pct 1 < 1 →
          (computeMember ss se l1 l2 hol sp m).available
            = pyRound ((((computeMember ss se l1 l2 hol sp m).actual : Int) : ℚ)
                * min m.start_pct 1)
          ∧ (computeMember ss se l1 l2 hol sp m).ramping
            = some (m.name, ratTrunc (min m.start_pct 1 * 100)))
      ∧ (¬min m.start_pct 1 < 1 →
          (computeMember ss se l1 l2 hol sp m).available
            = (computeMember ss se l1 l2 hol sp m).actual)) := by
  rcases hguard with hl | ⟨ld, hl, hlt⟩
  · constructor
    · intro h1
      by_cases h2 : se < sd <;>
        simp [computeMember, hs, hl, h1, h2]
    · intro h0
      subst h0
      have h1 : ¬se < sd := by omega
      have h2 : ¬sd < sd := by omega
      have h3 : (sd : Int) - (sd : Int) = 0 := by omega
      by_cases hr : min m.start_pct 1 < 1 <;>
        simp [computeMember, hs, hl, h1, h2, hse, h3, Int.zero_fdiv, hr] <;>
        omega
  · constructor
    · intro h1
      by_cases h2 : se < sd <;>
        simp [computeMember, hs, hl, h1, h2, hlt]
    · intro h0
      subst h0
      have h1 : ¬se < sd := by omega
      have h2 : ¬sd < sd := by omega
      have h3 : (sd : Int) - (sd : Int) = 0 := by omega
      by_cases hr : min m.start_pct 1 < 1 <;>
        simp [computeMember, hs, hl, hlt, h1, h2, hse, h3, Int.zero_fdiv, hr] <;>
        omega

/-- Witness for `c1_amended`: a starter whose `start_date` equals the
sprint start with `start_pct = 0.5` gets a starter record and
`available = round(10 × 0.5) = 5`. -/
theorem c1_amended_wit :
    (computeMember mondayOrd sundayEndOrd emptyDates emptyDates emptyDates 0
        ⟨"Ann", "Ann", "Ann", some mondayOrd, none, 1 / 2⟩).starter
      = some ("Ann", mondayOrd)
    ∧ (computeMember mondayOrd sundayEndOrd emptyDates emptyDates emptyDates 0
        ⟨"Ann", "Ann", "Ann", some mondayOrd, none, 1 / 2⟩).available = 5 := by
  have hmin : min ((1 : ℚ) / 2) 1 = 1 / 2 := by
    rw [min_eq_left]
    norm_num
  have h := (c1_amended mondayOrd sundayEndOrd emptyDates emptyDates emptyDates
      0 ⟨"Ann", "Ann", "Ann", some mondayOrd, none, 1 / 2⟩ mondayOrd rfl
      (Or.inl rfl) (by decide)).2 rfl
  refine ⟨h.2.1, ?_⟩
  have hav := (h.2.2.2.1 (by rw [hmin]; norm_num)).1
  have hact : (computeMember mondayOrd sundayEndOrd emptyDates emptyDates
      emptyDates 0 ⟨"Ann", "Ann", "Ann", some mondayOrd, none, 1 / 2⟩).actual
      = 10 := by
    rw [h.2.2.1]
    decide
  rw [hav, hact, hmin]
  norm_num [pyRound]

/-- C7: aggregation round-trip and coefficient formulas —
`total_team_days` is the sum of `available` over the non-excluded
member results, `points = total_team_days × load_factor ×
point_capacity`, `eng_points = points × engineering_split` and
`prod_points = points − eng_points`. -/
theorem c7_aggregation (ss se : Nat) (l1 l2 hol : String → List Nat)
    (socials : List Nat) (epicTotal : ℚ) (team : Team) :
    (get_team_availability ss se l1 l2 hol socials epicTotal team).total_team_days
      = (((team.team_members.map
            (computeMember ss se l1 l2 hol (socialPenalty socials ss se))).filter
            (fun x => !x.excluded)).map (fun x => x.available)).sum
    ∧ (get_team_availability ss se l1 l2 hol socials epicTotal team).points
      = ((get_team_availability ss se l1 l2 hol socials epicTotal
            team).total_team_days : ℚ) * team.load_factor * team.point_capacity
    ∧ (get_team_availability ss se l1 l2 hol socials epicTotal team).eng_points
      = (get_team_availability ss se l1 l2 hol socials epicTotal team).points
          * team.engineering_split
    ∧ (get_team_availability ss se l1 l2 hol socials epicTotal team).prod_points
      = (get_team_availability ss se l1 l2 hol socials epicTotal team).points
          - (get_team_availability ss se l1 l2 hol socials epicTotal
              team).eng_points := by
  have hchar := (foldl_availStep_char ss se l1 l2 hol
    (socialPenalty socials ss se) team.team_members ⟨[], 0, 0, [], [], []⟩).1
  refine ⟨?_, rfl, rfl, rfl⟩
  simpa [get_team_availability] using hchar

/-- C8, counterexample: a member with one L2 on-call day and no other
deduction keeps all 10 available days — identical to having no L2 day
— so an L2 day does not reduce availability (it is only reported in
the row); the claim asserts both tiers reduce capacity. -/
theorem c8_counterexample :
    (computeMember mondayOrd sundayEndOrd emptyDates
        (fun _ => [mondayOrd + 1]) emptyDates 0
        ⟨"Ann", "Ann", "Ann", none, none, 1⟩).available = 10
    ∧ (computeMember mondayOrd sundayEndOrd emptyDates emptyDates emptyDates 0
        ⟨"Ann", "Ann", "Ann", none, none, 1⟩).available = 10
    ∧ (computeMember mondayOrd sundayEndOrd emptyDates
        (fun _ => [mondayOrd + 1]) emptyDates 0
        ⟨"Ann", "Ann", "Ann", none, none, 1⟩).l2len = 1 :=
  ⟨by decide, by decide, by decide⟩

/-- C8, amended: the available-day count never depends on the L2
assignment map (L2 days are only reported), while each L1 day is
subtracted from the base 10 (floored at 0) for a fully-present
member. -/
theorem c8_amended (ss se : Nat) (l1 l2a l2b hol : String → List Nat)
    (sp : Nat) (m : TeamMember) :
    (computeMember ss se l1 l2a hol sp m).available
      = (computeMember ss se l1 l2b hol sp m).available
    ∧ (m.start_date = none → m.leave_date = none →
        (computeMember ss se l1 l2a hol sp m).available
          = max 0 ((10 : Int) - ((hol m.name).length : Int)
              - ((l1 m.pagerduty_name).length : Int) - (sp : Int))) := by
  constructor
  · rcases hl : m.leave_date with _ | ld <;> rcases hs : m.start_date with _ | sd
    · simp [computeMember, hl, hs]
    · simp only [computeMember, hl, hs]
      split_ifs <;> rfl
    · simp [computeMember, hl, hs]
    · rcases Nat.lt_or_ge se ld with hd | hd
      · have hd2 : decide (se < ld) = true := decide_eq_true hd
        simp only [computeMember, hl, hs, hd2]
        try split_ifs <;> rfl
      · have hd2 : decide (se < ld) = false := decide_eq_false (by omega)
        simp only [computeMember, hl, hs, hd2]
        try split_ifs <;> rfl
  · intro hs hl
    simp [computeMember, hs, hl]
    omega

/-- Witness for `c8_amended`: one L1 day and one L2 day; the L1 day
brings the count from 10 to 9, the L2 day changes nothing. -/
theorem c8_amended_wit :
    (computeMember mondayOrd sundayEndOrd (fun _ => [mondayOrd + 1])
        (fun _ => [mondayOrd + 2]) emptyDates 0
        ⟨"Ann", "Ann", "Ann", none, none, 1⟩).available = 9 := by
  have h := c8_amended mondayOrd sundayEndOrd (fun _ => [mondayOrd + 1])
    (fun _ => [mondayOrd + 2]) emptyDates emptyDates 0
    ⟨"Ann", "Ann", "Ann", none, none, 1⟩
  rw [h.2 rfl rfl]
  decide

/-- A member dictionary with `leave_date` strictly before
`start_date` — the invalid configuration claim C9 says must be
rejected at load time. -/
def badDict : MemberDict :=
  { name := "Zed", start_date := some (ordinalOf 2025 12 1),
    leave_date := some (ordinalOf 2025 11 1) }

/-- C9, counterexample: `TeamMember.from_dict` and the `Team` member
processing perform no validation whatsoever: the roster entry with
`leave_date ≤ start_date` is accepted and stored verbatim, so no
load-time rejection exists. -/
theorem c9_counterexample :
    (TeamMember.from_dict badDict).start_date = some (ordinalOf 2025 12 1)
    ∧ (TeamMember.from_dict badDict).leave_date = some (ordinalOf 2025 11 1)
    ∧ ordinalOf 2025 11 1 ≤ ordinalOf 2025 12 1
    ∧ Team.mkMembers [badDict] = [TeamMember.from_dict badDict] :=
  ⟨rfl, rfl, by decide, rfl⟩

/-- C9, amended: roster loading performs no start/leave validation:
`from_dict` stores `start_date` and `leave_date` verbatim for every
input, and `Team`'s member processing keeps every entry, so a member
with `leave_date ≤ start_date` is loaded like any other. -/
theorem c9_amended (d : MemberDict) (ds : List MemberDict) :
    (TeamMember.from_dict d).start_date = d.start_date
    ∧ (TeamMember.from_dict d).leave_date = d.leave_date
    ∧ (TeamMember.from_dict d).name = d.name
    ∧ (Team.mkMembers ds).length = ds.length
    ∧ TeamMember.from_dict d ∈ Team.mkMembers (d :: ds) :=
  ⟨rfl, rfl, rfl, by simp [Team.mkMembers], by simp [Team.mkMembers]⟩

/-- C10, counterexample: a member with `start_date = sprint.start + 2`
(strictly after the sprint start) but `leave_date = sprint.start + 4`
inside the window is NOT excluded: the leaver branch emits a row with
5 available days and a leaver note, because the starter-branch
exclusion only runs when the member has no leave date or leaves after
the sprint end. -/
theorem c10_counterexample :
    (computeMember mondayOrd sundayEndOrd emptyDates emptyDates emptyDates 0
        ⟨"Ann", "Ann", "Ann", some (mondayOrd + 2), some (mondayOrd + 4),
          1⟩).excluded = false
    ∧ (computeMember mondayOrd sundayEndOrd emptyDates emptyDates emptyDates 0
        ⟨"Ann", "Ann", "Ann", some (mondayOrd + 2), some (mondayOrd + 4),
          1⟩).leaver = some ("Ann", mondayOrd + 4)
    ∧ (computeMember mondayOrd sundayEndOrd emptyDates emptyDates emptyDates 0
        ⟨"Ann", "Ann", "Ann", some (mondayOrd + 2), some (mondayOrd + 4),
          1⟩).available = 5 :=
  ⟨by decide, by decide, by decide⟩

/-- C10, amended: a member is excluded — no row, no starter/leaver
note, 0 available days — when `leave_date < sprint.start`, or when
`start_date > sprint.start` AND the member has no leave date or a
leave date after the sprint end (the starter-branch guard); and the
rows list of the aggregated result contains exactly the non-excluded
member results. -/
theorem c10_amended (ss se : Nat) (l1 l2 hol : String → List Nat) (sp : Nat)
    (m : TeamMember) (hse : ss ≤ se)
    (hexcl : (∃ ld, m.leave_date = some ld ∧ ld < ss)
      ∨ ((∃ sd, m.start_date = some sd ∧ ss < sd)
          ∧ (m.leave_date = none ∨ ∃ ld, m.leave_date = some ld ∧ se < ld))) :
    (computeMember ss se l1 l2 hol sp m).excluded = true
    ∧ (computeMember ss se l1 l2 hol sp m).starter = none
    ∧ (computeMember ss se l1 l2 hol sp m).leaver = none
    ∧ (computeMember ss se l1 l2 hol sp m).available = 0
    ∧ (∀ (socials : List Nat) (epicTotal : ℚ) (team : Team),
        (get_team_availability ss se l1 l2 hol socials epicTotal team).rows.length
          = ((team.team_members.map (computeMember ss se l1 l2 hol
              (socialPenalty socials ss se))).filter
              (fun x => !x.excluded)).length) := by
  have hrows : ∀ (socials : List Nat) (epicTotal : ℚ) (team : Team),
      (get_team_availability ss se l1 l2 hol socials epicTotal team).rows.length
        = ((team.team_members.map (computeMember ss se l1 l2 hol
            (socialPenalty socials ss se))).filter
            (fun x => !x.excluded)).length := by
    intro socials epicTotal team
    have hchar := (foldl_availStep_char ss se l1 l2 hol
      (socialPenalty socials ss se) team.team_members ⟨[], 0, 0, [], [], []⟩).2.2
    simpa [get_team_availability, length_sortBy] using hchar
  rcases hexcl with ⟨ld, hld, hlt⟩ | ⟨⟨sd, hsd, hlt⟩, hguard⟩
  · have h1 : ¬se < ld := by omega
    rcases hs : m.start_date with _ | sd <;>
      refine ⟨?_, ?_, ?_, ?_, hrows⟩ <;>
      simp [computeMember, hld, hs, hlt, h1]
  · rcases hguard with hl | ⟨ld, hld, hlt2⟩
    · by_cases h2 : se < sd <;>
        refine ⟨?_, ?_, ?_, ?_, hrows⟩ <;>
        simp [computeMember, hsd, hl, hlt, h2]
    · have h3 : ¬ld < ss := by omega
      have h4 : ¬ld ≤ se := by omega
      by_cases h2 : se < sd <;>
        refine ⟨?_, ?_, ?_, ?_, hrows⟩ <;>
        simp [computeMember, hsd, hld, hlt, hlt2, h2, h3, h4]

/-- Witness for `c10_amended`: a member who left before the sprint is
excluded with no row and no notes. -/
theorem c10_amended_wit :
    (computeMember mondayOrd sundayEndOrd emptyDates emptyDates emptyDates 0
        ⟨"Eve", "Eve", "Eve", none, some (mondayOrd - 3), 1⟩).excluded = true
    ∧ (computeMember mondayOrd sundayEndOrd emptyDates emptyDates emptyDates 0
        ⟨"Eve", "Eve", "Eve", none, some (mondayOrd - 3), 1⟩).available = 0 := by
  have h := c10_amended mondayOrd sundayEndOrd emptyDates emptyDates emptyDates
    0 ⟨"Eve", "Eve", "Eve", none, some (mondayOrd - 3), 1⟩ (by decide)
    (Or.inl ⟨mondayOrd - 3, rfl, by decide⟩)
  exact ⟨h.1, h.2.2.2.1⟩
